import Mathlib

/-!
Verification of the GPT_Middleware Excel range-permission and name-resolution
subsystem: a shallow embedding of the range validator middleware
(parseCellAddress / parseRange / rangesOverlap / isRangeContained /
validateRange), the utility helpers (columnLetterToNumber /
columnNumberToLetter / parseExcelRange), the Joi range schema pattern, and the
resolver service (resolveDriveIdByName / resolveItemIdByName /
resolveWorksheetIdByName with their TTL caches), together with theorems about
the frozen specification claims.

Strings are modelled as `List Char` (JS strings viewed as character
sequences); JS exceptions are modelled as `Option` / `Except` results.
-/

/-- JS strings are modelled as lists of characters. -/
abbrev Str := List Char

deriving instance DecidableEq for Except

/-- Character class `[A-Z]` of the source regexes (char codes 65..90). -/
def isUpperAZ (c : Char) : Bool :=
  decide (65 ≤ c.toNat) && decide (c.toNat ≤ 90)

/-- Character class `\d` = `[0-9]` of the source regexes (char codes 48..57). -/
def isDigit09 (c : Char) : Bool :=
  decide (48 ≤ c.toNat) && decide (c.toNat ≤ 57)

/-- `String.prototype.split` with a single-character separator:
`"".split(c) = [""]`, and every occurrence of the separator delimits a
(possibly empty) field. -/
def splitOnChar (sep : Char) : Str → List Str
  | [] => [[]]
  | c :: rest =>
    let r := splitOnChar sep rest
    if c = sep then [] :: r
    else
      match r with
      | [] => [[c]]
      | h :: t => (c :: h) :: t

/-- `parseInt` on a digits-only string: fold of `acc * 10 + digit`. -/
def natOfDigits (s : Str) : Nat :=
  s.foldl (fun a c => a * 10 + (c.toNat - 48)) 0

/-- Matcher for the anchored regex `^([A-Z]+)(\d+)$`: a nonempty maximal run
of uppercase letters followed by a nonempty run of digits consuming the whole
string; returns the two capture groups. -/
def matchColRow (s : Str) : Option (Str × Str) :=
  let letters := s.takeWhile isUpperAZ
  let rest := s.dropWhile isUpperAZ
  let digits := rest.takeWhile isDigit09
  let rest2 := rest.dropWhile isDigit09
  if letters ≠ [] ∧ digits ≠ [] ∧ rest2 = [] then some (letters, digits) else none

/-- Parsed cell coordinates (`parseCellAddress` result, `{col, row}`;
the redundant `address` echo field is omitted as no consumer reads it). -/
structure Cell where
  col : Nat
  row : Nat
deriving Repr, DecidableEq

/-- `RangeValidator.parseCellAddress`: match `^([A-Z]+)(\d+)$`, convert the
letters by `colNumber = colNumber * 26 + (charCode - 64)`, the digits by
`parseInt`; a failed match throws (modelled as `none`). -/
def parseCellAddress (cellAddress : Str) : Option Cell :=
  match matchColRow cellAddress with
  | none => none
  | some (colLetters, rowDigits) =>
    some ⟨colLetters.foldl (fun colNumber c => colNumber * 26 + (c.toNat - 64)) 0,
          natOfDigits rowDigits⟩

/-- `RangeValidator.parseRange` result (the `fullRange` echo field is omitted
as no consumer reads it). An absent sheet name is the empty string, exactly as
in the source (`let sheetName = ''`). -/
structure ParsedRange where
  sheetName : Str
  startCell : Cell
  endCell : Cell
deriving Repr, DecidableEq

/-- The sheet-name/address extraction of `RangeValidator.parseRange`: if the
string contains `!`, the part before the first `!` is the sheet name and
`parts[1]` (the part between the first and second `!`) is the address. -/
def rangeAddressOf (range : Str) : Str :=
  if range.contains '!' then ((splitOnChar '!' range).drop 1).headD []
  else range

/-- The sheet-name component extracted by `RangeValidator.parseRange`. -/
def sheetNameOf (range : Str) : Str :=
  if range.contains '!' then (splitOnChar '!' range).headD []
  else []

/-- `RangeValidator.parseRange`: split off an optional `Sheet!` prefix, split
the address on `:` into exactly two cell addresses, and parse both; any
failure throws `Invalid range format` (modelled as `none`). -/
def parseRange (range : Str) : Option ParsedRange :=
  match splitOnChar ':' (rangeAddressOf range) with
  | [a, b] =>
    match parseCellAddress a, parseCellAddress b with
    | some startCell, some endCell => some ⟨sheetNameOf range, startCell, endCell⟩
    | _, _ => none
  | _ => none

/-- `RangeValidator.rangesOverlap`: ranges on two different (both nonempty)
sheet names never overlap; otherwise axis-aligned rectangle overlap on the
coordinates. -/
def rangesOverlap (range1 range2 : ParsedRange) : Bool :=
  if !range1.sheetName.isEmpty && !range2.sheetName.isEmpty
      && range1.sheetName ≠ range2.sheetName then
    false
  else
    !(decide (range1.endCell.col < range2.startCell.col)
      || decide (range2.endCell.col < range1.startCell.col)
      || decide (range1.endCell.row < range2.startCell.row)
      || decide (range2.endCell.row < range1.startCell.row))

/-- `RangeValidator.isRangeContained`: same sheet rule as overlap, then
coordinate-wise containment of `range1` in `range2`. -/
def isRangeContained (range1 range2 : ParsedRange) : Bool :=
  if !range1.sheetName.isEmpty && !range2.sheetName.isEmpty
      && range1.sheetName ≠ range2.sheetName then
    false
  else
    decide (range1.startCell.col ≥ range2.startCell.col)
    && decide (range1.endCell.col ≤ range2.endCell.col)
    && decide (range1.startCell.row ≥ range2.startCell.row)
    && decide (range1.endCell.row ≤ range2.endCell.row)

/-- The result codes of `RangeValidator.validateRange`. -/
inductive Code where
  | RANGE_LOCKED
  | RANGE_ALLOWED
  | RANGE_NOT_ALLOWED
  | VALIDATION_ERROR
deriving Repr, DecidableEq

/-- The structured `{allowed, reason, code}` result of `validateRange`. -/
structure VResult where
  allowed : Bool
  reason : Str
  code : Code
deriving Repr, DecidableEq

/-- The `Validation error: Invalid range format: <range>` reason produced when
`parseRange` throws inside `validateRange` and the catch block wraps the
exception message. -/
def veResult (range : Str) : VResult :=
  ⟨false, ("Validation error: Invalid range format: ").toList ++ range, .VALIDATION_ERROR⟩

/-- The locked-range denial result. -/
def lockedResult (lockedRange : Str) : VResult :=
  ⟨false, ("Range overlaps with locked range: ").toList ++ lockedRange, .RANGE_LOCKED⟩

/-- The allowed-range admission result. -/
def allowedResult (allowedRange : Str) : VResult :=
  ⟨true, ("Range is within allowed range: ").toList ++ allowedRange, .RANGE_ALLOWED⟩

/-- The fall-through denial result. -/
def notAllowedResult : VResult :=
  ⟨false, ("Range is not within any allowed ranges").toList, .RANGE_NOT_ALLOWED⟩

/-- The `for (const lockedRange of this.lockedRanges)` loop of
`validateRange`: parse each entry (a throw aborts the whole call with
`VALIDATION_ERROR`), return `RANGE_LOCKED` on the first overlap, `none` when
the loop falls through. -/
def lockedLoop (parsedRequested : ParsedRange) : List Str → Option VResult
  | [] => none
  | lockedRange :: rest =>
    match parseRange lockedRange with
    | none => some (veResult lockedRange)
    | some parsedLocked =>
      if rangesOverlap parsedRequested parsedLocked then some (lockedResult lockedRange)
      else lockedLoop parsedRequested rest

/-- The `for (const allowedRange of this.allowedRanges)` loop of
`validateRange`: parse each entry (a throw aborts the whole call with
`VALIDATION_ERROR`), return `RANGE_ALLOWED` on the first entry that overlaps
and fully contains the request, `none` when the loop falls through. -/
def allowedLoop (parsedRequested : ParsedRange) : List Str → Option VResult
  | [] => none
  | allowedRange :: rest =>
    match parseRange allowedRange with
    | none => some (veResult allowedRange)
    | some parsedAllowed =>
      if rangesOverlap parsedRequested parsedAllowed
          && isRangeContained parsedRequested parsedAllowed then
        some (allowedResult allowedRange)
      else allowedLoop parsedRequested rest

/-- The worksheet qualification step of `validateRange`:
``if (!requestedRange.includes('!') && worksheetId) fullRange =
`${worksheetId}!${requestedRange}` ``. -/
def fullRangeOf (requestedRange worksheetId : Str) : Str :=
  if !(requestedRange.contains '!') && !worksheetId.isEmpty then
    worksheetId ++ '!' :: requestedRange
  else requestedRange

/-- `RangeValidator.validateRange`, as a function of the allowed/locked lists
it iterates over: qualify with the worksheet, parse the request, run the
locked loop then the allowed loop, falling through to `RANGE_NOT_ALLOWED`;
every thrown exception is caught and converted into `VALIDATION_ERROR`. -/
def validateRangeWith (allowedRanges lockedRanges : List Str)
    (requestedRange worksheetId : Str) : VResult :=
  let fullRange := fullRangeOf requestedRange worksheetId
  match parseRange fullRange with
  | none => veResult fullRange
  | some parsedRequested =>
    match lockedLoop parsedRequested lockedRanges with
    | some r => r
    | none =>
      match allowedLoop parsedRequested allowedRanges with
      | some r => r
      | none => notAllowedResult

/-- The two ordered lists held in the validator's mutable fields
(`this.allowedRanges`, `this.lockedRanges`), also the shape of the
`rangePermissions.json` policy document. -/
structure PolicyConfig where
  allowedRanges : List Str
  lockedRanges : List Str
deriving Repr, DecidableEq

/-- `RangeValidator.loadConfig`: on a successful read+parse of the policy
document the two lists are taken from it (`config.allowedRanges || []`);
on any failure (`none`) both fall back to empty lists (deny all writes). -/
def loadConfigResult (doc : Option PolicyConfig) : PolicyConfig :=
  doc.getD ⟨[], []⟩

/-- One call to the stateful `RangeValidator.validateRange`, modelling the
JS event-loop semantics of the un-awaited `this.loadConfig()` on line 143:
`loadConfig` suspends at `await fs.readFile` and only resolves after the
synchronous `validateRange` body has returned, so the decision is computed
from the lists held in the validator state *before* the call (`st`), while
the state visible to later calls reflects the policy document (`doc`) read
during this call. -/
def validateRangeCall (st : PolicyConfig) (doc : Option PolicyConfig)
    (requestedRange worksheetId : Str) : VResult × PolicyConfig :=
  (validateRangeWith st.allowedRanges st.lockedRanges requestedRange worksheetId,
   loadConfigResult doc)

/-- `columnLetterToNumber` (utility helpers): fold
`result = result * 26 + (charCode - charCode('A') + 1)` over the string. -/
def columnLetterToNumber (column : Str) : Nat :=
  column.foldl (fun result c => result * 26 + (c.toNat - ('A').toNat + 1)) 0

/-- `columnNumberToLetter` (utility helpers): bijective base-26; the JS
`while (num > 0) { num--; result = fromCharCode(65 + num % 26) + result;
num = floor(num / 26) }` loop written as recursion on the shrinking `num`. -/
def columnNumberToLetter (num : Nat) : Str :=
  if h : num = 0 then []
  else columnNumberToLetter ((num - 1) / 26) ++ [Char.ofNat (65 + (num - 1) % 26)]
termination_by num
decreasing_by
  have hle : (num - 1) / 26 ≤ num - 1 := Nat.div_le_self _ _
  omega

/-- `parseExcelRange` (utility helpers) result; `rowCount`/`columnCount` are
JS numbers that go negative on reversed ranges, hence `Int`. -/
structure ExcelRangeInfo where
  startColumn : Str
  startRow : Nat
  endColumn : Str
  endRow : Nat
  isSingleCell : Bool
  rowCount : Int
  columnCount : Int
deriving Repr, DecidableEq

/-- `parseExcelRange` (utility helpers, distinct from the validator's
`parseRange`): split on `:`; one part must match `^([A-Z]+)(\d+)$` as a
single cell; two parts must each match the same pattern; anything else
throws `Invalid range format` (modelled as `none`). -/
def parseExcelRange (range : Str) : Option ExcelRangeInfo :=
  match splitOnChar ':' range with
  | [p] =>
    match matchColRow p with
    | none => none
    | some (letters, digits) =>
      let row := natOfDigits digits
      some ⟨letters, row, letters, row, true, 1, 1⟩
  | [p1, p2] =>
    match matchColRow p1, matchColRow p2 with
    | some (l1, d1), some (l2, d2) =>
      let startCol := columnLetterToNumber l1
      let endCol := columnLetterToNumber l2
      let startRow := natOfDigits d1
      let endRow := natOfDigits d2
      some ⟨l1, startRow, l2, endRow, false,
            (endRow : Int) - (startRow : Int) + 1,
            (endCol : Int) - (startCol : Int) + 1⟩
    | _, _ => none
  | _ => none

/-- Grammar form `COL ROW` (a single cell such as `B5`): a nonempty run of
uppercase letters followed by a nonempty run of digits. -/
def FormCell (s : Str) : Prop :=
  ∃ l d, s = l ++ d ∧ l ≠ [] ∧ d ≠ [] ∧ l.all isUpperAZ ∧ d.all isDigit09

/-- Grammar form `COL ROW : COL ROW` (such as `A1:B2`). -/
def FormCellCell (s : Str) : Prop :=
  ∃ a b, s = a ++ ':' :: b ∧ FormCell a ∧ FormCell b

/-- Grammar form `COL:COL` (full-column, such as `A:B`). -/
def FormColCol (s : Str) : Prop :=
  ∃ a b, s = a ++ ':' :: b ∧ a ≠ [] ∧ b ≠ [] ∧ a.all isUpperAZ ∧ b.all isUpperAZ

/-- Grammar form `ROW:ROW` (full-row, such as `1:5`). -/
def FormRowRow (s : Str) : Prop :=
  ∃ a b, s = a ++ ':' :: b ∧ a ≠ [] ∧ b ≠ [] ∧ a.all isDigit09 ∧ b.all isDigit09

/-- The four address alternatives of the Joi `schemas.range` pattern
`[A-Z]+\d+:[A-Z]+\d+|[A-Z]+\d+|[A-Z]+:[A-Z]+|\d+:\d+`, as an executable
matcher. -/
def addrFormB (s : Str) : Bool :=
  (match splitOnChar ':' s with
   | [a] =>
     (matchColRow a).isSome
   | [a, b] =>
     ((matchColRow a).isSome && (matchColRow b).isSome)
     || (!a.isEmpty && !b.isEmpty && a.all isUpperAZ && b.all isUpperAZ)
     || (!a.isEmpty && !b.isEmpty && a.all isDigit09 && b.all isDigit09)
   | _ => false)

/-- The Joi `schemas.range` pattern
`^(?:[^!\n\r]+!)?(?:[A-Z]+\d+:[A-Z]+\d+|[A-Z]+\d+|[A-Z]+:[A-Z]+|\d+:\d+)$`:
an optional nonempty sheet prefix (free of `!`, newline and carriage return)
ending at the first `!`, followed by one of the four address forms (which
themselves can never contain `!`). -/
def schemaRangeAccepts (s : Str) : Bool :=
  if s.contains '!' then
    match splitOnChar '!' s with
    | [p, addr] =>
      !p.isEmpty && !p.contains '\n' && !p.contains '\r' && addrFormB addr
    | _ => false
  else addrFormB s

/-- An entry of the resolver caches: `{ id, ts }` with an epoch-millisecond
timestamp (`Int`, as JS `Date.now()` arithmetic is on signed numbers). -/
structure CacheEntry where
  id : Str
  ts : Int
deriving Repr, DecidableEq

/-- `this.ttlMs = 10 * 60 * 1000` — the 10-minute resolver cache TTL. -/
def ttlMs : Int := 10 * 60 * 1000

/-- `ResolverService.isFresh`: `entry && (Date.now() - entry.ts) < this.ttlMs`. -/
def isFresh (now : Int) : Option CacheEntry → Bool
  | none => false
  | some e => decide (now - e.ts < ttlMs)

/-- One entry of a Graph listing (`{name, id}` projection of a drive, a
drive item, or a worksheet). -/
structure NamedItem where
  name : Str
  id : Str
deriving Repr, DecidableEq

/-- `String.prototype.toLowerCase` restricted to the ASCII letters that the
names in the claims range over. -/
def lcStr (s : Str) : Str := s.map Char.toLower

/-- A JS `Map` modelled as an association list; `Map.prototype.set` replaces
an existing key in place or appends a new one. -/
def mapSet (m : List (Str × CacheEntry)) (k : Str) (v : CacheEntry) :
    List (Str × CacheEntry) :=
  if m.any (fun p => p.1 == k) then
    m.map (fun p => if p.1 == k then (k, v) else p)
  else m ++ [(k, v)]

/-- The three in-memory caches of `ResolverService`. -/
structure ResolverState where
  driveCache : List (Str × CacheEntry)
  itemCache : List (Str × CacheEntry)
  worksheetCache : List (Str × CacheEntry)
deriving Repr, DecidableEq

/-- An `AppError` as thrown by the resolver service: message and HTTP status. -/
structure AppError where
  message : Str
  status : Nat
deriving Repr, DecidableEq

/-- `JSON.stringify` of one name (quote, escaping `"` and `\`; the control
characters the claims never exercise are left unescaped). -/
def jsonQuote (s : Str) : Str :=
  '"' :: (s.foldr (fun c acc =>
    if c = '"' || c = '\\' then '\\' :: c :: acc else c :: acc) ['"'])

/-- `JSON.stringify` of the `available` name array embedded in the NotFound
messages. -/
def jsonStringifyNames (names : List Str) : Str :=
  '[' :: (List.intercalate [','] (names.map jsonQuote)) ++ [']']

/-- The cache-miss path of `resolveDriveIdByName`: list the drives via the
Graph collaborator (modelled by the `drives` listing argument), linear-scan
for a case-insensitive exact name match, throw a 404 `AppError` carrying the
available names when none matches, otherwise cache `{id, ts: now}` under the
drive name and return the id. -/
def resolveDriveFresh (st : ResolverState) (now : Int) (drives : List NamedItem)
    (driveName : Str) : Except AppError Str × ResolverState :=
  let available := drives.map (fun d => d.name)
  let driveNameLc := lcStr driveName
  match drives.find? (fun d => lcStr d.name == driveNameLc) with
  | none =>
    (.error ⟨("Drive not found. Available drives: ").toList
              ++ jsonStringifyNames available, 404⟩, st)
  | some m =>
    (.ok m.id, { st with driveCache := mapSet st.driveCache driveName ⟨m.id, now⟩ })

/-- `ResolverService.resolveDriveIdByName`: require a nonempty name, serve a
fresh cache entry without touching the collaborator, otherwise fall to the
fresh-lookup path. -/
def resolveDriveIdByName (st : ResolverState) (now : Int) (drives : List NamedItem)
    (driveName : Str) : Except AppError Str × ResolverState :=
  if driveName.isEmpty then (.error ⟨("driveName is required").toList, 400⟩, st)
  else
    match st.driveCache.lookup driveName with
    | some e =>
      if now - e.ts < ttlMs then (.ok e.id, st)
      else resolveDriveFresh st now drives driveName
    | none => resolveDriveFresh st now drives driveName

/-- The cache-miss path of `resolveItemIdByName`: list the children of the
drive root (the `items` listing argument), case-insensitive exact match,
404 `AppError` with the available names on no match, else cache under
`` `${driveId}:${itemName}` `` and return the id. -/
def resolveItemFresh (st : ResolverState) (now : Int) (items : List NamedItem)
    (driveId itemName : Str) : Except AppError Str × ResolverState :=
  let available := items.map (fun it => it.name)
  let itemNameLc := lcStr itemName
  match items.find? (fun it => lcStr it.name == itemNameLc) with
  | none =>
    (.error ⟨("File not found in this drive. Available items: ").toList
              ++ jsonStringifyNames available, 404⟩, st)
  | some m =>
    (.ok m.id,
     { st with itemCache := mapSet st.itemCache (driveId ++ ':' :: itemName) ⟨m.id, now⟩ })

/-- `ResolverService.resolveItemIdByName`. -/
def resolveItemIdByName (st : ResolverState) (now : Int) (items : List NamedItem)
    (driveId itemName : Str) : Except AppError Str × ResolverState :=
  if driveId.isEmpty then (.error ⟨("driveId is required").toList, 400⟩, st)
  else if itemName.isEmpty then (.error ⟨("itemName is required").toList, 400⟩, st)
  else
    match st.itemCache.lookup (driveId ++ ':' :: itemName) with
    | some e =>
      if now - e.ts < ttlMs then (.ok e.id, st)
      else resolveItemFresh st now items driveId itemName
    | none => resolveItemFresh st now items driveId itemName

/-- The cache-miss path of `resolveWorksheetIdByName`: list the worksheets
(the `sheets` listing argument) and match with `ws.name === worksheetName` —
case-SENSITIVE, unlike the drive/item resolvers — throwing a 404 whose
message carries only the requested name, not the available list. -/
def resolveWorksheetFresh (st : ResolverState) (now : Int) (sheets : List NamedItem)
    (itemId worksheetName : Str) : Except AppError Str × ResolverState :=
  match sheets.find? (fun ws => ws.name == worksheetName) with
  | none =>
    (.error ⟨("Worksheet not found: ").toList ++ worksheetName, 404⟩, st)
  | some m =>
    (.ok m.id,
     { st with worksheetCache := mapSet st.worksheetCache (itemId ++ ':' :: worksheetName) ⟨m.id, now⟩ })

/-- `ResolverService.resolveWorksheetIdByName` (the `driveId` argument is
only interpolated into the Graph URL and plays no role in the logic). -/
def resolveWorksheetIdByName (st : ResolverState) (now : Int) (sheets : List NamedItem)
    (itemId worksheetName : Str) : Except AppError Str × ResolverState :=
  if worksheetName.isEmpty then
    (.error ⟨("worksheetName is required to resolve worksheetId").toList, 400⟩, st)
  else
    match st.worksheetCache.lookup (itemId ++ ':' :: worksheetName) with
    | some e =>
      if now - e.ts < ttlMs then (.ok e.id, st)
      else resolveWorksheetFresh st now sheets itemId worksheetName
    | none => resolveWorksheetFresh st now sheets itemId worksheetName

/-- The empty resolver state (a freshly constructed `ResolverService`). -/
def emptyResolverState : ResolverState := ⟨[], [], []⟩

/-! ## Spec-side reference definitions for the geometry refinement claim -/

/-- The overlap predicate written from the spec's words (§4.2): if BOTH
ranges specify a sheet name and the names differ they never overlap
regardless of coordinates; if either omits a sheet name, coordinates alone
decide; two axis-aligned rectangles overlap unless one is entirely to the
left, right, above, or below the other. -/
def specOverlaps (a b : ParsedRange) : Bool :=
  if a.sheetName ≠ [] ∧ b.sheetName ≠ [] ∧ a.sheetName ≠ b.sheetName then false
  else
    !(decide (a.endCell.col < b.startCell.col)
      || decide (b.endCell.col < a.startCell.col)
      || decide (a.endCell.row < b.startCell.row)
      || decide (b.endCell.row < a.startCell.row))

/-- The containment predicate written from the spec's words (§4.2): same
sheet rule as overlap, then `inner.startCol ≥ outer.startCol AND inner.endCol
≤ outer.endCol AND inner.startRow ≥ outer.startRow AND inner.endRow ≤
outer.endRow`. -/
def specContains (inner outer : ParsedRange) : Bool :=
  if inner.sheetName ≠ [] ∧ outer.sheetName ≠ [] ∧ inner.sheetName ≠ outer.sheetName then
    false
  else
    decide (inner.startCell.col ≥ outer.startCell.col)
    && decide (inner.endCell.col ≤ outer.endCell.col)
    && decide (inner.startCell.row ≥ outer.startCell.row)
    && decide (inner.endCell.row ≤ outer.endCell.row)

/-! ## Helper lemmas about `splitOnChar` and `matchColRow` -/

theorem splitOnChar_ne_nil (sep : Char) (s : Str) : splitOnChar sep s ≠ [] := by
  induction s with
  | nil => simp [splitOnChar]
  | cons c rest ih =>
    simp only [splitOnChar]
    by_cases hc : c = sep
    · simp [hc]
    · simp only [if_neg hc]
      cases hr : splitOnChar sep rest with
      | nil => exact absurd hr ih
      | cons h t => simp

theorem splitOnChar_of_not_mem {sep : Char} {s : Str} (h : sep ∉ s) :
    splitOnChar sep s = [s] := by
  induction s with
  | nil => rfl
  | cons c rest ih =>
    have hc : c ≠ sep := fun hq => h (hq ▸ List.mem_cons_self c rest)
    have hr : sep ∉ rest := fun hq => h (List.mem_cons_of_mem c hq)
    simp [splitOnChar, if_neg hc, ih hr]

theorem splitOnChar_pair {sep : Char} {a b : Str} (ha : sep ∉ a) (hb : sep ∉ b) :
    splitOnChar sep (a ++ sep :: b) = [a, b] := by
  induction a with
  | nil => simp [splitOnChar, splitOnChar_of_not_mem hb]
  | cons c rest ih =>
    have hc : c ≠ sep := fun hq => ha (hq ▸ List.mem_cons_self c rest)
    have hr : sep ∉ rest := fun hq => ha (List.mem_cons_of_mem c hq)
    simp [splitOnChar, if_neg hc, ih hr]

theorem splitOnChar_single_inv {sep : Char} {s a : Str}
    (h : splitOnChar sep s = [a]) : s = a := by
  induction s generalizing a with
  | nil => simpa [splitOnChar] using h.symm
  | cons c rest ih =>
    simp only [splitOnChar] at h
    by_cases hc : c = sep
    · rw [if_pos hc] at h
      cases hq : splitOnChar sep rest with
      | nil => exact absurd hq (splitOnChar_ne_nil sep rest)
      | cons x t => rw [hq] at h; simp at h
    · rw [if_neg hc] at h
      cases hq : splitOnChar sep rest with
      | nil => exact absurd hq (splitOnChar_ne_nil sep rest)
      | cons x t =>
        rw [hq] at h
        simp only [List.cons.injEq] at h
        obtain ⟨h1, h2⟩ := h
        have : rest = x := ih (by rw [hq, h2])
        simp [← h1, this]

theorem splitOnChar_pair_inv {sep : Char} {s a b : Str}
    (h : splitOnChar sep s = [a, b]) : s = a ++ sep :: b := by
  induction s generalizing a with
  | nil => simp [splitOnChar] at h
  | cons c rest ih =>
    simp only [splitOnChar] at h
    by_cases hc : c = sep
    · rw [if_pos hc] at h
      simp only [List.cons.injEq] at h
      obtain ⟨h1, h2⟩ := h
      have : rest = b := splitOnChar_single_inv h2
      simp [← h1, hc, this]
    · rw [if_neg hc] at h
      cases hq : splitOnChar sep rest with
      | nil => exact absurd hq (splitOnChar_ne_nil sep rest)
      | cons x t =>
        rw [hq] at h
        simp only [List.cons.injEq] at h
        obtain ⟨h1, h2⟩ := h
        have : rest = x ++ sep :: b := ih (by rw [hq, h2])
        simp [← h1, this]

theorem isDigit09_not_isUpperAZ {c : Char} (h : isDigit09 c = true) :
    isUpperAZ c = false := by
  simp only [isDigit09, Bool.and_eq_true, decide_eq_true_eq] at h
  have hlt : ¬ (65 ≤ c.toNat) := by omega
  simp [isUpperAZ, hlt]

theorem isUpperAZ_ne_colon {c : Char} (h : isUpperAZ c = true) : c ≠ ':' := by
  intro hc
  subst hc
  simp [isUpperAZ] at h

theorem isDigit09_ne_colon {c : Char} (h : isDigit09 c = true) : c ≠ ':' := by
  intro hc
  subst hc
  simp [isDigit09] at h

theorem isUpperAZ_ne_bang {c : Char} (h : isUpperAZ c = true) : c ≠ '!' := by
  intro hc
  subst hc
  simp [isUpperAZ] at h

theorem isDigit09_ne_bang {c : Char} (h : isDigit09 c = true) : c ≠ '!' := by
  intro hc
  subst hc
  simp [isDigit09] at h

theorem matchColRow_sound {s l d : Str} (h : matchColRow s = some (l, d)) :
    s = l ++ d ∧ l ≠ [] ∧ d ≠ [] ∧ l.all isUpperAZ ∧ d.all isDigit09 := by
  simp only [matchColRow] at h
  split at h
  case isTrue hcond =>
    obtain ⟨hl, hd, hr⟩ := hcond
    simp only [Option.some.injEq, Prod.mk.injEq] at h
    obtain ⟨h1, h2⟩ := h
    subst h1
    subst h2
    refine ⟨?_, hl, hd, List.all_takeWhile, List.all_takeWhile⟩
    have e1 : s.takeWhile isUpperAZ ++ s.dropWhile isUpperAZ = s :=
      List.takeWhile_append_dropWhile isUpperAZ s
    have e2 : (s.dropWhile isUpperAZ).takeWhile isDigit09
        ++ (s.dropWhile isUpperAZ).dropWhile isDigit09 = s.dropWhile isUpperAZ :=
      List.takeWhile_append_dropWhile isDigit09 _
    rw [hr, List.append_nil] at e2
    rw [e2, e1]
  case isFalse => exact absurd h (by simp)

theorem takeWhile_eq_nil_of_head {p : Char → Bool} {d : Str} (hd : d ≠ [])
    (h : ∀ x ∈ d, p x = false) : d.takeWhile p = [] := by
  cases d with
  | nil => exact absurd rfl hd
  | cons x t => simp [List.takeWhile_cons, h x (List.mem_cons_self x t)]

theorem dropWhile_eq_self_of_head {p : Char → Bool} {d : Str} (hd : d ≠ [])
    (h : ∀ x ∈ d, p x = false) : d.dropWhile p = d := by
  cases d with
  | nil => exact absurd rfl hd
  | cons x t => simp [List.dropWhile_cons, h x (List.mem_cons_self x t)]

theorem matchColRow_complete {l d : Str} (hl : l ≠ []) (hd : d ≠ [])
    (hu : l.all isUpperAZ) (hdig : d.all isDigit09) :
    matchColRow (l ++ d) = some (l, d) := by
  have hu' : ∀ x ∈ l, isUpperAZ x = true := List.all_eq_true.mp hu
  have hd' : ∀ x ∈ d, isDigit09 x = true := List.all_eq_true.mp hdig
  have hnu : ∀ x ∈ d, isUpperAZ x = false := fun x hx => isDigit09_not_isUpperAZ (hd' x hx)
  have e1 : (l ++ d).takeWhile isUpperAZ = l := by
    rw [List.takeWhile_append_of_pos hu', takeWhile_eq_nil_of_head hd hnu,
        List.append_nil]
  have e2 : (l ++ d).dropWhile isUpperAZ = d := by
    rw [List.dropWhile_append_of_pos hu', dropWhile_eq_self_of_head hd hnu]
  have e3 : d.takeWhile isDigit09 = d := List.takeWhile_eq_self_iff.mpr hd'
  have e4 : d.dropWhile isDigit09 = [] := List.dropWhile_eq_nil_iff.mpr hd'
  simp [matchColRow, e1, e2, e3, e4, hl, hd]

theorem all_not_mem {p : Char → Bool} {s : Str} (h : s.all p)
    {c : Char} (hc : p c = false) : c ∉ s := by
  intro hmem
  have := List.all_eq_true.mp h c hmem
  rw [hc] at this
  exact absurd this (by simp)

/-! ## Lemmas about the two validation loops -/

theorem lockedLoop_append_skip {req : ParsedRange} {pre rest : List Str}
    (h : ∀ p ∈ pre, ∃ pp, parseRange p = some pp ∧ rangesOverlap req pp = false) :
    lockedLoop req (pre ++ rest) = lockedLoop req rest := by
  induction pre with
  | nil => rfl
  | cons e t ih =>
    obtain ⟨pp, hp, hov⟩ := h e (List.mem_cons_self e t)
    simp [lockedLoop, hp, hov, ih (fun p hm => h p (List.mem_cons_of_mem e hm))]

theorem lockedLoop_none {req : ParsedRange} {l : List Str}
    (h : ∀ p ∈ l, ∃ pp, parseRange p = some pp ∧ rangesOverlap req pp = false) :
    lockedLoop req l = none := by
  have h2 := @lockedLoop_append_skip req l [] h
  simpa using h2

theorem lockedLoop_locked {req : ParsedRange} {pre : List Str} {e : Str}
    {rest : List Str} {pe : ParsedRange}
    (hpre : ∀ p ∈ pre, (parseRange p).isSome)
    (he : parseRange e = some pe) (hov : rangesOverlap req pe = true) :
    ∃ r, lockedLoop req (pre ++ e :: rest) = some r
      ∧ r.allowed = false ∧ r.code = Code.RANGE_LOCKED := by
  induction pre with
  | nil => exact ⟨lockedResult e, by simp [lockedLoop, he, hov], rfl, rfl⟩
  | cons p t ih =>
    obtain ⟨pp, hpp⟩ := Option.isSome_iff_exists.mp (hpre p (List.mem_cons_self p t))
    by_cases hov2 : rangesOverlap req pp = true
    · exact ⟨lockedResult p, by simp [lockedLoop, hpp, hov2], rfl, rfl⟩
    · obtain ⟨r, hr, h1, h2⟩ := ih (fun q hm => hpre q (List.mem_cons_of_mem p hm))
      refine ⟨r, ?_, h1, h2⟩
      simp only [Bool.not_eq_true] at hov2
      simp [lockedLoop, hpp, hov2, hr]

theorem lockedLoop_ve {req : ParsedRange} {pre : List Str} {e : Str} {rest : List Str}
    (hpre : ∀ p ∈ pre, ∃ pp, parseRange p = some pp ∧ rangesOverlap req pp = false)
    (he : parseRange e = none) :
    lockedLoop req (pre ++ e :: rest) = some (veResult e) := by
  rw [lockedLoop_append_skip hpre]
  simp [lockedLoop, he]

theorem lockedLoop_some_code {req : ParsedRange} {l : List Str} {r : VResult}
    (h : lockedLoop req l = some r) :
    r.allowed = false ∧ (r.code = Code.RANGE_LOCKED ∨ r.code = Code.VALIDATION_ERROR) := by
  induction l with
  | nil => simp [lockedLoop] at h
  | cons e t ih =>
    cases hp : parseRange e with
    | none =>
      simp only [lockedLoop, hp, Option.some.injEq] at h
      subst h
      exact ⟨rfl, Or.inr rfl⟩
    | some pe =>
      simp only [lockedLoop, hp] at h
      by_cases hov : rangesOverlap req pe = true
      · rw [if_pos hov] at h
        simp only [Option.some.injEq] at h
        subst h
        exact ⟨rfl, Or.inl rfl⟩
      · rw [if_neg hov] at h
        exact ih h

theorem allowedLoop_append_skip {req : ParsedRange} {pre rest : List Str}
    (h : ∀ a ∈ pre, ∃ pa, parseRange a = some pa
        ∧ (rangesOverlap req pa && isRangeContained req pa) = false) :
    allowedLoop req (pre ++ rest) = allowedLoop req rest := by
  induction pre with
  | nil => rfl
  | cons e t ih =>
    obtain ⟨pa, hp, hm⟩ := h e (List.mem_cons_self e t)
    simp [allowedLoop, hp, hm, ih (fun a hm2 => h a (List.mem_cons_of_mem e hm2))]

theorem allowedLoop_none {req : ParsedRange} {l : List Str}
    (h : ∀ a ∈ l, ∃ pa, parseRange a = some pa
        ∧ (rangesOverlap req pa && isRangeContained req pa) = false) :
    allowedLoop req l = none := by
  have h2 := @allowedLoop_append_skip req l [] h
  simpa using h2

theorem allowedLoop_match {req : ParsedRange} {pre : List Str} {e : Str}
    {rest : List Str} {pe : ParsedRange}
    (hpre : ∀ a ∈ pre, ∃ pa, parseRange a = some pa
        ∧ (rangesOverlap req pa && isRangeContained req pa) = false)
    (he : parseRange e = some pe)
    (hm : (rangesOverlap req pe && isRangeContained req pe) = true) :
    allowedLoop req (pre ++ e :: rest) = some (allowedResult e) := by
  rw [allowedLoop_append_skip hpre]
  simp [allowedLoop, he, hm]

theorem allowedLoop_ve {req : ParsedRange} {pre : List Str} {e : Str} {rest : List Str}
    (hpre : ∀ a ∈ pre, ∃ pa, parseRange a = some pa
        ∧ (rangesOverlap req pa && isRangeContained req pa) = false)
    (he : parseRange e = none) :
    allowedLoop req (pre ++ e :: rest) = some (veResult e) := by
  rw [allowedLoop_append_skip hpre]
  simp [allowedLoop, he]

theorem allowedLoop_some_of_exists {req : ParsedRange} {l : List Str}
    (hall : ∀ a ∈ l, (parseRange a).isSome)
    (hex : ∃ a ∈ l, ∃ pa, parseRange a = some pa
        ∧ (rangesOverlap req pa && isRangeContained req pa) = true) :
    ∃ r, allowedLoop req l = some r ∧ r.allowed = true ∧ r.code = Code.RANGE_ALLOWED := by
  induction l with
  | nil => simp at hex
  | cons e t ih =>
    obtain ⟨pe, hpe⟩ := Option.isSome_iff_exists.mp (hall e (List.mem_cons_self e t))
    by_cases hm : (rangesOverlap req pe && isRangeContained req pe) = true
    · exact ⟨allowedResult e, by simp [allowedLoop, hpe, hm], rfl, rfl⟩
    · obtain ⟨a, ha, pa, hpa, hma⟩ := hex
      rcases List.mem_cons.mp ha with hae | hat
      · subst hae
        rw [hpa] at hpe
        cases hpe
        exact absurd hma hm
      · have := ih (fun a hm2 => hall a (List.mem_cons_of_mem e hm2)) ⟨a, hat, pa, hpa, hma⟩
        obtain ⟨r, hr, h1, h2⟩ := this
        refine ⟨r, ?_, h1, h2⟩
        simp only [Bool.not_eq_true] at hm
        simp [allowedLoop, hpe, hm, hr]

theorem allowedLoop_allowed_exists {req : ParsedRange} {l : List Str} {r : VResult}
    (h : allowedLoop req l = some r) (hr : r.allowed = true) :
    ∃ a ∈ l, ∃ pa, parseRange a = some pa
      ∧ (rangesOverlap req pa && isRangeContained req pa) = true := by
  induction l with
  | nil => simp [allowedLoop] at h
  | cons e t ih =>
    cases hp : parseRange e with
    | none =>
      simp only [allowedLoop, hp, Option.some.injEq] at h
      subst h
      simp [veResult] at hr
    | some pe =>
      simp only [allowedLoop, hp] at h
      by_cases hm : (rangesOverlap req pe && isRangeContained req pe) = true
      · exact ⟨e, List.mem_cons_self e t, pe, hp, hm⟩
      · rw [if_neg hm] at h
        obtain ⟨a, ha, pa, hpa, hma⟩ := ih h
        exact ⟨a, List.mem_cons_of_mem e ha, pa, hpa, hma⟩

theorem allowedLoop_some_code {req : ParsedRange} {l : List Str} {r : VResult}
    (h : allowedLoop req l = some r) :
    (r.allowed = true ∧ r.code = Code.RANGE_ALLOWED)
      ∨ (r.allowed = false ∧ r.code = Code.VALIDATION_ERROR) := by
  induction l with
  | nil => simp [allowedLoop] at h
  | cons e t ih =>
    cases hp : parseRange e with
    | none =>
      simp only [allowedLoop, hp, Option.some.injEq] at h
      subst h
      exact Or.inr ⟨rfl, rfl⟩
    | some pe =>
      simp only [allowedLoop, hp] at h
      by_cases hm : (rangesOverlap req pe && isRangeContained req pe) = true
      · rw [if_pos hm] at h
        simp only [Option.some.injEq] at h
        subst h
        exact Or.inl ⟨rfl, rfl⟩
      · rw [if_neg hm] at h
        exact ih h

/-! ## Claim theorems -/

/-- C3: the overlap test of `rangesOverlap` equals the reference definition —
ranges on two differing (both present) sheet names never overlap regardless
of coordinates, otherwise coordinates alone decide via
`NOT (a.endCol < b.startCol OR b.endCol < a.startCol OR a.endRow <
b.startRow OR b.endRow < a.startRow)` — and the same sheet rule governs
`isRangeContained`. -/
theorem rangesOverlap_isRangeContained_eq_spec (a b : ParsedRange) :
    rangesOverlap a b = specOverlaps a b ∧ isRangeContained a b = specContains a b := by
  constructor <;>
    simp only [rangesOverlap, specOverlaps, isRangeContained, specContains] <;>
    by_cases h1 : a.sheetName = [] <;> by_cases h2 : b.sheetName = [] <;>
      by_cases h3 : a.sheetName = b.sheetName <;>
      simp [h1, h2, h3, List.isEmpty_iff]

/-- C1 counterexample: with `allowedRanges = ["A1:Z100"]` and `lockedRanges =
["garbage", "C1:C100"]`, the locked entry `C1:C100` parses and overlaps the
request `C1:C2`, yet `validateRange` returns `VALIDATION_ERROR` (the
malformed earlier locked entry aborts the call) rather than `RANGE_LOCKED`
as the claim states for every policy state. -/
theorem validateRange_locked_counterexample :
    parseRange ("C1:C2").toList = some ⟨[], ⟨3, 1⟩, ⟨3, 2⟩⟩
    ∧ parseRange ("C1:C100").toList = some ⟨[], ⟨3, 1⟩, ⟨3, 100⟩⟩
    ∧ rangesOverlap ⟨[], ⟨3, 1⟩, ⟨3, 2⟩⟩ ⟨[], ⟨3, 1⟩, ⟨3, 100⟩⟩ = true
    ∧ (validateRangeWith [("A1:Z100").toList]
        [("garbage").toList, ("C1:C100").toList]
        ("C1:C2").toList []).code = Code.VALIDATION_ERROR := by
  decide

/-- C1 (amended): if the requested range parses, some locked entry parses and
overlaps it, and every locked entry listed before that one parses, then
`validateRange` returns `allowed = false` with `RANGE_LOCKED` — regardless
of the `allowedRanges` list, so a lock wins even when the request is fully
contained in an allowed entry. -/
theorem validateRange_locked_wins {allowedRanges : List Str} {pre : List Str}
    {e : Str} {post : List Str} {req ws : Str} {preq pe : ParsedRange}
    (hreq : parseRange (fullRangeOf req ws) = some preq)
    (hpre : ∀ p ∈ pre, (parseRange p).isSome)
    (he : parseRange e = some pe)
    (hov : rangesOverlap preq pe = true) :
    (validateRangeWith allowedRanges (pre ++ e :: post) req ws).allowed = false
    ∧ (validateRangeWith allowedRanges (pre ++ e :: post) req ws).code
        = Code.RANGE_LOCKED := by
  obtain ⟨r, hr, h1, h2⟩ := @lockedLoop_locked preq pre e post pe hpre he hov
  simp [validateRangeWith, hreq, hr, h1, h2]

/-- C1 witness: `allowedRanges = ["A1:Z100"]`, `lockedRanges = ["A1:A1",
"C1:C100"]`, request `C1:C2` is denied with `RANGE_LOCKED` although the
allowed superset contains it. -/
theorem validateRange_locked_wins_witness :
    (validateRangeWith [("A1:Z100").toList] [("A1:A1").toList, ("C1:C100").toList]
      ("C1:C2").toList []).allowed = false
    ∧ (validateRangeWith [("A1:Z100").toList] [("A1:A1").toList, ("C1:C100").toList]
        ("C1:C2").toList []).code = Code.RANGE_LOCKED :=
  @validateRange_locked_wins [("A1:Z100").toList] [("A1:A1").toList]
    ("C1:C100").toList [] ("C1:C2").toList []
    ⟨[], ⟨3, 1⟩, ⟨3, 2⟩⟩ ⟨[], ⟨3, 1⟩, ⟨3, 100⟩⟩
    (by decide) (by decide) (by decide) (by decide)

/-- C2 counterexample: with `allowedRanges = ["garbage", "A1:Z100"]` and no
locked entries, the request `B1:B2` overlaps no locked entry and is overlapped
and fully contained by the allowed entry `A1:Z100`, yet `validateRange`
returns `VALIDATION_ERROR` (the malformed earlier allowed entry aborts the
call) instead of `allowed = true` with `RANGE_ALLOWED` as the claim states. -/
theorem validateRange_allowed_counterexample :
    parseRange ("B1:B2").toList = some ⟨[], ⟨2, 1⟩, ⟨2, 2⟩⟩
    ∧ parseRange ("A1:Z100").toList = some ⟨[], ⟨1, 1⟩, ⟨26, 100⟩⟩
    ∧ rangesOverlap ⟨[], ⟨2, 1⟩, ⟨2, 2⟩⟩ ⟨[], ⟨1, 1⟩, ⟨26, 100⟩⟩ = true
    ∧ isRangeContained ⟨[], ⟨2, 1⟩, ⟨2, 2⟩⟩ ⟨[], ⟨1, 1⟩, ⟨26, 100⟩⟩ = true
    ∧ (validateRangeWith [("garbage").toList, ("A1:Z100").toList] []
        ("B1:B2").toList []).allowed = false
    ∧ (validateRangeWith [("garbage").toList, ("A1:Z100").toList] []
        ("B1:B2").toList []).code = Code.VALIDATION_ERROR := by
  decide

/-- C2 (amended): when the request parses, every locked entry parses without
overlapping it, and every allowed entry parses, then `validateRange` returns
`allowed = true` with `RANGE_ALLOWED` iff some allowed entry both overlaps
and fully contains the request; the first such entry in list order is the
one reported; and when none contains it the result is `RANGE_NOT_ALLOWED`. -/
theorem validateRange_allowed_iff_contained {allowedRanges lockedRanges : List Str}
    {req ws : Str} {preq : ParsedRange}
    (hreq : parseRange (fullRangeOf req ws) = some preq)
    (hlock : ∀ l ∈ lockedRanges, ∃ pl, parseRange l = some pl
        ∧ rangesOverlap preq pl = false)
    (hall : ∀ a ∈ allowedRanges, (parseRange a).isSome) :
    (((validateRangeWith allowedRanges lockedRanges req ws).allowed = true
       ∧ (validateRangeWith allowedRanges lockedRanges req ws).code = Code.RANGE_ALLOWED)
      ↔ (∃ a ∈ allowedRanges, ∃ pa, parseRange a = some pa
          ∧ rangesOverlap preq pa = true ∧ isRangeContained preq pa = true))
    ∧ ((¬ ∃ a ∈ allowedRanges, ∃ pa, parseRange a = some pa
          ∧ rangesOverlap preq pa = true ∧ isRangeContained preq pa = true) →
        validateRangeWith allowedRanges lockedRanges req ws = notAllowedResult)
    ∧ (∀ pre a post pa, allowedRanges = pre ++ a :: post →
        (∀ p ∈ pre, ∀ pp, parseRange p = some pp →
          (rangesOverlap preq pp && isRangeContained preq pp) = false) →
        parseRange a = some pa →
        rangesOverlap preq pa = true → isRangeContained preq pa = true →
        validateRangeWith allowedRanges lockedRanges req ws = allowedResult a) := by
  have hln : lockedLoop preq lockedRanges = none := lockedLoop_none hlock
  refine ⟨⟨?_, ?_⟩, ?_, ?_⟩
  · intro ⟨ha, _⟩
    cases hal : allowedLoop preq allowedRanges with
    | none =>
      simp [validateRangeWith, hreq, hln, hal, notAllowedResult] at ha
    | some r =>
      have hres : validateRangeWith allowedRanges lockedRanges req ws = r := by
        simp [validateRangeWith, hreq, hln, hal]
      rw [hres] at ha
      obtain ⟨a, hm, pa, hpa, hma⟩ := allowedLoop_allowed_exists hal ha
      rw [Bool.and_eq_true] at hma
      exact ⟨a, hm, pa, hpa, hma.1, hma.2⟩
  · intro ⟨a, hm, pa, hpa, hov, hcont⟩
    obtain ⟨r, hr, h1, h2⟩ := allowedLoop_some_of_exists hall
      ⟨a, hm, pa, hpa, by rw [Bool.and_eq_true]; exact ⟨hov, hcont⟩⟩
    have hres : validateRangeWith allowedRanges lockedRanges req ws = r := by
      simp [validateRangeWith, hreq, hln, hr]
    rw [hres]
    exact ⟨h1, h2⟩
  · intro hnone
    have hskip : ∀ a ∈ allowedRanges, ∃ pa, parseRange a = some pa
        ∧ (rangesOverlap preq pa && isRangeContained preq pa) = false := by
      intro a hm
      obtain ⟨pa, hpa⟩ := Option.isSome_iff_exists.mp (hall a hm)
      refine ⟨pa, hpa, ?_⟩
      by_contra hb
      rw [Bool.not_eq_false, Bool.and_eq_true] at hb
      exact hnone ⟨a, hm, pa, hpa, hb.1, hb.2⟩
    simp [validateRangeWith, hreq, hln, allowedLoop_none hskip]
  · intro pre a post pa hsplit hpre hpa hov hcont
    subst hsplit
    have hskip : ∀ p ∈ pre, ∃ pp, parseRange p = some pp
        ∧ (rangesOverlap preq pp && isRangeContained preq pp) = false := by
      intro p hm
      obtain ⟨pp, hpp⟩ := Option.isSome_iff_exists.mp
        (hall p (List.mem_append_left _ hm))
      exact ⟨pp, hpp, hpre p hm pp hpp⟩
    have hmatch := @allowedLoop_match preq pre a post pa hskip hpa
      (by rw [Bool.and_eq_true]; exact ⟨hov, hcont⟩)
    simp [validateRangeWith, hreq, hln, hmatch]

/-- C2 witness: `allowedRanges = ["A1:C10", "A1:Z100"]`, no locked entries;
the request `A1:Z1` overlaps `A1:C10` without being contained and is
contained in `A1:Z100`, which is reported. -/
theorem validateRange_allowed_iff_contained_witness :
    validateRangeWith [("A1:C10").toList, ("A1:Z100").toList] []
      ("A1:Z1").toList [] = allowedResult ("A1:Z100").toList := by
  have h := @validateRange_allowed_iff_contained
    [("A1:C10").toList, ("A1:Z100").toList] [] ("A1:Z1").toList []
    ⟨[], ⟨1, 1⟩, ⟨26, 1⟩⟩
    (by decide) (by intro l hl; simp at hl) (by decide)
  exact h.2.2 [("A1:C10").toList] ("A1:Z100").toList [] ⟨[], ⟨1, 1⟩, ⟨26, 100⟩⟩
    rfl (by decide) (by decide) (by decide) (by decide)

/-- C9: `validateRange` always returns a structured result whose code is one
of the four codes; a parse failure of the (worksheet-qualified) requested
range yields `allowed = false` with `VALIDATION_ERROR`; and a malformed
locked or allowed entry, when the loops reach it, likewise aborts just this
call with `allowed = false` and `VALIDATION_ERROR` — never an escaping
exception, which the embedding renders as totality of `validateRangeWith`. -/
theorem validateRange_total_codes (allowedRanges lockedRanges : List Str)
    (req ws : Str) :
    ((validateRangeWith allowedRanges lockedRanges req ws).code = Code.RANGE_LOCKED
      ∨ (validateRangeWith allowedRanges lockedRanges req ws).code = Code.RANGE_ALLOWED
      ∨ (validateRangeWith allowedRanges lockedRanges req ws).code = Code.RANGE_NOT_ALLOWED
      ∨ (validateRangeWith allowedRanges lockedRanges req ws).code = Code.VALIDATION_ERROR)
    ∧ (parseRange (fullRangeOf req ws) = none →
        validateRangeWith allowedRanges lockedRanges req ws
          = veResult (fullRangeOf req ws))
    ∧ (∀ preq pre e post, parseRange (fullRangeOf req ws) = some preq →
        lockedRanges = pre ++ e :: post →
        (∀ p ∈ pre, ∃ pp, parseRange p = some pp ∧ rangesOverlap preq pp = false) →
        parseRange e = none →
        validateRangeWith allowedRanges lockedRanges req ws = veResult e)
    ∧ (∀ preq pre e post, parseRange (fullRangeOf req ws) = some preq →
        (∀ l ∈ lockedRanges, ∃ pl, parseRange l = some pl
            ∧ rangesOverlap preq pl = false) →
        allowedRanges = pre ++ e :: post →
        (∀ p ∈ pre, ∃ pp, parseRange p = some pp
            ∧ (rangesOverlap preq pp && isRangeContained preq pp) = false) →
        parseRange e = none →
        validateRangeWith allowedRanges lockedRanges req ws = veResult e) := by
  refine ⟨?_, ?_, ?_, ?_⟩
  · cases hc : (validateRangeWith allowedRanges lockedRanges req ws).code <;> simp
  · intro hp
    simp [validateRangeWith, hp]
  · intro preq pre e post hreq hsplit hpre he
    subst hsplit
    simp [validateRangeWith, hreq, lockedLoop_ve hpre he]
  · intro preq pre e post hreq hlock hsplit hpre he
    subst hsplit
    simp [validateRangeWith, hreq, lockedLoop_none hlock, allowedLoop_ve hpre he]

/-- C9 witness: the three `VALIDATION_ERROR` clauses at concrete inputs — a
malformed request, a malformed locked entry, and a malformed allowed entry. -/
theorem validateRange_total_codes_witness :
    validateRangeWith [] [] ("notarange").toList []
      = veResult ("notarange").toList
    ∧ validateRangeWith [] [("garbage").toList] ("A1:B2").toList []
      = veResult ("garbage").toList
    ∧ validateRangeWith [("garbage").toList] [] ("A1:B2").toList []
      = veResult ("garbage").toList := by
  refine ⟨?_, ?_, ?_⟩
  · exact (validateRange_total_codes [] [] ("notarange").toList []).2.1 (by decide)
  · exact (validateRange_total_codes [] [("garbage").toList] ("A1:B2").toList []).2.2.1
      ⟨[], ⟨1, 1⟩, ⟨2, 2⟩⟩ [] ("garbage").toList [] (by decide) rfl
      (by intro p hp; simp at hp) (by decide)
  · exact (validateRange_total_codes [("garbage").toList] [] ("A1:B2").toList []).2.2.2
      ⟨[], ⟨1, 1⟩, ⟨2, 2⟩⟩ [] ("garbage").toList [] (by decide)
      (by intro l hl; simp at hl) rfl (by intro p hp; simp at hp) (by decide)

/-- C4 (code bug): `validateRange` calls `this.loadConfig()` without `await`,
so the decision of a call is computed from the lists loaded *before* the
call, not from the policy document read during it. Starting from the
previously-loaded empty lists, with the policy document now containing
`allowedRanges = ["A1:B2"]`, the call for `A1:A1` is denied
`RANGE_NOT_ALLOWED`, although a decision from the document's current content
would be `RANGE_ALLOWED` — which is indeed what the *next* call returns. -/
theorem validateRange_uses_stale_config :
    (validateRangeCall ⟨[], []⟩ (some ⟨[("A1:B2").toList], []⟩)
        ("A1:A1").toList []).1 = notAllowedResult
    ∧ (validateRangeCall ⟨[], []⟩ (some ⟨[("A1:B2").toList], []⟩)
        ("A1:A1").toList []).2 = ⟨[("A1:B2").toList], []⟩
    ∧ validateRangeWith [("A1:B2").toList] [] ("A1:A1").toList []
        = allowedResult ("A1:B2").toList
    ∧ (validateRangeCall ⟨[("A1:B2").toList], []⟩ (some ⟨[("A1:B2").toList], []⟩)
        ("A1:A1").toList []).1 = allowedResult ("A1:B2").toList := by
  decide

theorem charOfNat_toNat {m : Nat} (h : m < 55296) : (Char.ofNat m).toNat = m := by
  have hv : m.isValidChar := Or.inl h
  rw [Char.ofNat, dif_pos hv]
  rfl

theorem columnLetter_roundTrip (n : Nat) :
    columnLetterToNumber (columnNumberToLetter n) = n := by
  induction n using Nat.strong_induction_on with
  | _ n ih =>
    by_cases h : n = 0
    · subst h
      rw [columnNumberToLetter]
      rfl
    · rw [columnNumberToLetter, dif_neg h]
      have hih := ih ((n - 1) / 26)
        (Nat.lt_of_le_of_lt (Nat.div_le_self (n - 1) 26) (by omega))
      have hc : (Char.ofNat (65 + (n - 1) % 26)).toNat = 65 + (n - 1) % 26 :=
        charOfNat_toNat (by have := Nat.mod_lt (n - 1) (show 0 < 26 by omega); omega)
      have hA : ('A').toNat = 65 := rfl
      unfold columnLetterToNumber at *
      rw [List.foldl_append, List.foldl_cons, List.foldl_nil, hih, hc, hA]
      have hdm := Nat.div_add_mod (n - 1) 26
      omega

/-- C7: for every `n` in `[1, 16384]`,
`columnLetterToNumber (columnNumberToLetter n) = n` — the bijective base-26
encoding and its inverse round-trip over the full Excel column space. -/
theorem columnConversion_roundTrip (n : Nat) (h1 : 1 ≤ n) (h2 : n ≤ 16384) :
    columnLetterToNumber (columnNumberToLetter n) = n :=
  columnLetter_roundTrip n

/-- C7 witness at the last Excel column: `XFD` = 16384. -/
theorem columnConversion_roundTrip_witness :
    1 ≤ 16384 ∧ 16384 ≤ 16384
    ∧ columnLetterToNumber (columnNumberToLetter 16384) = 16384 :=
  ⟨by decide, by decide, columnConversion_roundTrip 16384 (by decide) (by decide)⟩

theorem matchColRow_none_of_all_upper {s : Str} (h : s.all isUpperAZ = true) :
    matchColRow s = none := by
  have h' := List.all_eq_true.mp h
  have e1 : s.takeWhile isUpperAZ = s := List.takeWhile_eq_self_iff.mpr h'
  have e2 : s.dropWhile isUpperAZ = [] := List.dropWhile_eq_nil_iff.mpr h'
  simp [matchColRow, e1, e2]

theorem matchColRow_none_of_all_digit {s : Str} (h : s.all isDigit09 = true) :
    matchColRow s = none := by
  cases s with
  | nil => rfl
  | cons c t =>
    have hc : isDigit09 c = true :=
      List.all_eq_true.mp h c (List.mem_cons_self c t)
    have hcu : isUpperAZ c = false := isDigit09_not_isUpperAZ hc
    simp [matchColRow, List.takeWhile_cons, hcu]

theorem formCell_no_colon {s : Str} (h : FormCell s) : ':' ∉ s := by
  obtain ⟨l, d, hs, _, _, hu, hd⟩ := h
  subst hs
  intro hm
  rcases List.mem_append.mp hm with hml | hmd
  · exact all_not_mem hu (by decide) hml
  · exact all_not_mem hd (by decide) hmd

theorem parseCellAddress_none_of_all_upper {s : Str} (h : s.all isUpperAZ = true) :
    parseCellAddress s = none := by
  simp [parseCellAddress, matchColRow_none_of_all_upper h]

theorem parseCellAddress_none_of_all_digit {s : Str} (h : s.all isDigit09 = true) :
    parseCellAddress s = none := by
  simp [parseCellAddress, matchColRow_none_of_all_digit h]

/-- The three non-`CELL:CELL` address forms all make `parseRange` throw. -/
theorem parseRange_none_of_forms {range : Str}
    (h : FormCell (rangeAddressOf range) ∨ FormColCol (rangeAddressOf range)
        ∨ FormRowRow (rangeAddressOf range)) :
    parseRange range = none := by
  unfold parseRange
  rcases h with hc | hcc | hrr
  · rw [splitOnChar_of_not_mem (formCell_no_colon hc)]
  · obtain ⟨a, b, hs, _, _, hua, hub⟩ := hcc
    rw [hs, splitOnChar_pair (all_not_mem hua (by decide)) (all_not_mem hub (by decide))]
    simp [parseCellAddress_none_of_all_upper hua]
  · obtain ⟨a, b, hs, _, _, hda, hdb⟩ := hrr
    rw [hs, splitOnChar_pair (all_not_mem hda (by decide)) (all_not_mem hdb (by decide))]
    simp [parseCellAddress_none_of_all_digit hda]

theorem contains_eq_false_of_not_mem {s : Str} {c : Char} (h : c ∉ s) :
    s.contains c = false := by
  cases hq : s.contains c with
  | false => rfl
  | true => exact absurd (List.elem_iff.mp hq) h

/-- `!` occurs in none of the four bare address forms. -/
theorem forms_no_bang {s : Str}
    (h : FormCell s ∨ FormCellCell s ∨ FormColCol s ∨ FormRowRow s) :
    '!' ∉ s := by
  have hcell : ∀ t : Str, FormCell t → '!' ∉ t := by
    intro t ht
    obtain ⟨l, d, hs, _, _, hu, hd⟩ := ht
    subst hs
    intro hm
    rcases List.mem_append.mp hm with hml | hmd
    · exact all_not_mem hu (by decide) hml
    · exact all_not_mem hd (by decide) hmd
  rcases h with hc | hcc | hcol | hrow
  · exact hcell s hc
  · obtain ⟨a, b, hs, ha, hb⟩ := hcc
    subst hs
    intro hm
    rcases List.mem_append.mp hm with hml | hmd
    · exact hcell a ha hml
    · rcases List.mem_cons.mp hmd with hq | hmb
      · exact absurd hq (by decide)
      · exact hcell b hb hmb
  · obtain ⟨a, b, hs, _, _, hua, hub⟩ := hcol
    subst hs
    intro hm
    rcases List.mem_append.mp hm with hml | hmd
    · exact all_not_mem hua (by decide) hml
    · rcases List.mem_cons.mp hmd with hq | hmb
      · exact absurd hq (by decide)
      · exact all_not_mem hub (by decide) hmb
  · obtain ⟨a, b, hs, _, _, hda, hdb⟩ := hrow
    subst hs
    intro hm
    rcases List.mem_append.mp hm with hml | hmd
    · exact all_not_mem hda (by decide) hml
    · rcases List.mem_cons.mp hmd with hq | hmb
      · exact absurd hq (by decide)
      · exact all_not_mem hdb (by decide) hmb

/-- The Joi schema accepts each of the four bare address forms. -/
theorem schemaRangeAccepts_of_form {s : Str}
    (h : FormCell s ∨ FormCellCell s ∨ FormColCol s ∨ FormRowRow s) :
    schemaRangeAccepts s = true := by
  have hnb : s.contains '!' = false := contains_eq_false_of_not_mem (forms_no_bang h)
  rw [schemaRangeAccepts, hnb]
  simp only [Bool.false_eq_true, if_false]
  rcases h with hc | hcc | hcol | hrow
  · obtain ⟨l, d, hs, hl, hd, hu, hdig⟩ := hc
    have hnc : ':' ∉ s := formCell_no_colon ⟨l, d, hs, hl, hd, hu, hdig⟩
    rw [addrFormB, splitOnChar_of_not_mem hnc, hs]
    simp [matchColRow_complete hl hd hu hdig]
  · obtain ⟨a, b, hs, ha, hb⟩ := hcc
    obtain ⟨la, da, hsa, hla, hda, hua, hdiga⟩ := ha
    obtain ⟨lb, db, hsb, hlb, hdb, hub, hdigb⟩ := hb
    rw [addrFormB, hs,
        splitOnChar_pair (formCell_no_colon ⟨la, da, hsa, hla, hda, hua, hdiga⟩)
          (formCell_no_colon ⟨lb, db, hsb, hlb, hdb, hub, hdigb⟩),
        hsa, hsb]
    simp [matchColRow_complete hla hda hua hdiga,
          matchColRow_complete hlb hdb hub hdigb]
  · obtain ⟨a, b, hs, ha, hb, hua, hub⟩ := hcol
    rw [addrFormB, hs,
        splitOnChar_pair (all_not_mem hua (by decide)) (all_not_mem hub (by decide))]
    simp [ha, hb, hua, hub, List.isEmpty_iff]
  · obtain ⟨a, b, hs, ha, hb, hda, hdb⟩ := hrow
    rw [addrFormB, hs,
        splitOnChar_pair (all_not_mem hda (by decide)) (all_not_mem hdb (by decide))]
    simp [ha, hb, hda, hdb, List.isEmpty_iff]

/-- C10: whenever the (worksheet-qualified) requested range's address part is
a single cell, a full-column form, or a full-row form — all accepted by the
request-validation schema — `validateRange` returns `allowed = false` with
`VALIDATION_ERROR` regardless of the policy lists, so such requests can
never be allowed; and indeed the Joi `schemas.range` pattern accepts every
bare string of these forms. -/
theorem validateRange_rejects_nonrectangular (allowedRanges lockedRanges : List Str)
    (req ws : Str)
    (h : FormCell (rangeAddressOf (fullRangeOf req ws))
        ∨ FormColCol (rangeAddressOf (fullRangeOf req ws))
        ∨ FormRowRow (rangeAddressOf (fullRangeOf req ws))) :
    validateRangeWith allowedRanges lockedRanges req ws = veResult (fullRangeOf req ws)
    ∧ (validateRangeWith allowedRanges lockedRanges req ws).allowed = false
    ∧ (validateRangeWith allowedRanges lockedRanges req ws).code = Code.VALIDATION_ERROR
    ∧ (∀ s, FormCell s ∨ FormColCol s ∨ FormRowRow s → schemaRangeAccepts s = true) := by
  have hnone : parseRange (fullRangeOf req ws) = none := parseRange_none_of_forms h
  have hres : validateRangeWith allowedRanges lockedRanges req ws
      = veResult (fullRangeOf req ws) := by
    simp [validateRangeWith, hnone]
  refine ⟨hres, by rw [hres]; rfl, by rw [hres]; rfl, ?_⟩
  intro s hf
  rcases hf with hc | hcol | hrow
  · exact schemaRangeAccepts_of_form (Or.inl hc)
  · exact schemaRangeAccepts_of_form (Or.inr (Or.inr (Or.inl hcol)))
  · exact schemaRangeAccepts_of_form (Or.inr (Or.inr (Or.inr hrow)))

/-- C10 witness: the single-cell request `B5` with worksheet context
`Sheet1`, against an allow list that covers it, is still rejected with
`VALIDATION_ERROR`; and the schema accepts `B5`, `A:B` and `1:5`. -/
theorem validateRange_rejects_nonrectangular_witness :
    validateRangeWith [("A1:Z100").toList] [] ("B5").toList ("Sheet1").toList
      = veResult (fullRangeOf ("B5").toList ("Sheet1").toList)
    ∧ schemaRangeAccepts ("A:B").toList = true
    ∧ schemaRangeAccepts ("1:5").toList = true := by
  have hf : FormCell (rangeAddressOf (fullRangeOf ("B5").toList ("Sheet1").toList)) := by
    refine ⟨['B'], ['5'], ?_, by decide, by decide, by decide, by decide⟩
    decide
  have h := validateRange_rejects_nonrectangular [("A1:Z100").toList] []
    ("B5").toList ("Sheet1").toList (Or.inl hf)
  refine ⟨h.1, ?_, ?_⟩
  · exact h.2.2.2 ("A:B").toList
      (Or.inr (Or.inl ⟨['A'], ['B'], by decide, by decide, by decide, by decide, by decide⟩))
  · exact h.2.2.2 ("1:5").toList
      (Or.inr (Or.inr ⟨['1'], ['5'], by decide, by decide, by decide, by decide, by decide⟩))

/-- C8 counterexample: `A:B` matches the full-column form `COL:COL` that the
claim lists among the four recognized forms, yet `parseExcelRange` throws
`Invalid range format` on it (and likewise on the full-row form `1:5`). -/
theorem parseExcelRange_counterexample :
    FormColCol ("A:B").toList ∧ parseExcelRange ("A:B").toList = none
    ∧ FormRowRow ("1:5").toList ∧ parseExcelRange ("1:5").toList = none := by
  refine ⟨⟨['A'], ['B'], by decide, by decide, by decide, by decide, by decide⟩,
          by decide,
          ⟨['1'], ['5'], by decide, by decide, by decide, by decide, by decide⟩,
          by decide⟩

/-- C8 (amended): `parseExcelRange` succeeds exactly on the single-cell form
`COL ROW` and the two-part form `COL ROW : COL ROW`; the full-column
(`COL:COL`) and full-row (`ROW:ROW`) forms are *not* recognized and fail
with `Invalid range format`; and on a single-cell decomposition the result
has `start = end` with `rowCount = columnCount = 1`. -/
theorem parseExcelRange_forms (s : Str) :
    ((parseExcelRange s).isSome ↔ FormCell s ∨ FormCellCell s)
    ∧ (FormColCol s ∨ FormRowRow s → parseExcelRange s = none)
    ∧ (∀ l d, s = l ++ d → l ≠ [] → d ≠ [] → l.all isUpperAZ = true →
        d.all isDigit09 = true →
        parseExcelRange s
          = some ⟨l, natOfDigits d, l, natOfDigits d, true, 1, 1⟩) := by
  refine ⟨⟨?_, ?_⟩, ?_, ?_⟩
  · intro h
    obtain ⟨info, hinfo⟩ := Option.isSome_iff_exists.mp h
    unfold parseExcelRange at hinfo
    cases hsp : splitOnChar ':' s with
    | nil => exact absurd hsp (splitOnChar_ne_nil ':' s)
    | cons p t =>
      cases t with
      | nil =>
        rw [hsp] at hinfo
        cases hm : matchColRow p with
        | none => simp [hm] at hinfo
        | some ld =>
          obtain ⟨l, d⟩ := ld
          obtain ⟨hpld, hl, hd, hu, hdig⟩ := matchColRow_sound hm
          have hsp2 : s = p := splitOnChar_single_inv hsp
          exact Or.inl ⟨l, d, by rw [hsp2, hpld], hl, hd, hu, hdig⟩
      | cons p2 t2 =>
        cases t2 with
        | nil =>
          rw [hsp] at hinfo
          cases hm1 : matchColRow p with
          | none => simp [hm1] at hinfo
          | some ld1 =>
            cases hm2 : matchColRow p2 with
            | none => simp [hm1, hm2] at hinfo
            | some ld2 =>
              obtain ⟨l1, d1⟩ := ld1
              obtain ⟨l2, d2⟩ := ld2
              obtain ⟨hp1, hl1, hd1, hu1, hdig1⟩ := matchColRow_sound hm1
              obtain ⟨hp2, hl2, hd2, hu2, hdig2⟩ := matchColRow_sound hm2
              have hsp2 : s = p ++ ':' :: p2 := splitOnChar_pair_inv hsp
              exact Or.inr ⟨p, p2, hsp2,
                ⟨l1, d1, hp1, hl1, hd1, hu1, hdig1⟩,
                ⟨l2, d2, hp2, hl2, hd2, hu2, hdig2⟩⟩
        | cons p3 t3 =>
          rw [hsp] at hinfo
          simp at hinfo
  · intro h
    rcases h with hc | hcc
    · obtain ⟨l, d, hs, hl, hd, hu, hdig⟩ := hc
      have hnc : ':' ∉ s := formCell_no_colon ⟨l, d, hs, hl, hd, hu, hdig⟩
      unfold parseExcelRange
      rw [splitOnChar_of_not_mem hnc, hs]
      simp [matchColRow_complete hl hd hu hdig]
    · obtain ⟨a, b, hs, ha, hb⟩ := hcc
      obtain ⟨la, da, hsa, hla, hda, hua, hdiga⟩ := ha
      obtain ⟨lb, db, hsb, hlb, hdb, hub, hdigb⟩ := hb
      unfold parseExcelRange
      rw [hs, splitOnChar_pair (formCell_no_colon ⟨la, da, hsa, hla, hda, hua, hdiga⟩)
            (formCell_no_colon ⟨lb, db, hsb, hlb, hdb, hub, hdigb⟩),
          hsa, hsb]
      simp [matchColRow_complete hla hda hua hdiga,
            matchColRow_complete hlb hdb hub hdigb]
  · intro h
    unfold parseExcelRange
    rcases h with hcol | hrow
    · obtain ⟨a, b, hs, ha, hb, hua, hub⟩ := hcol
      rw [hs, splitOnChar_pair (all_not_mem hua (by decide)) (all_not_mem hub (by decide))]
      simp [matchColRow_none_of_all_upper hua]
    · obtain ⟨a, b, hs, ha, hb, hda, hdb⟩ := hrow
      rw [hs, splitOnChar_pair (all_not_mem hda (by decide)) (all_not_mem hdb (by decide))]
      simp [matchColRow_none_of_all_digit hda]
  · intro l d hs hl hd hu hdig
    have hnc : ':' ∉ s := formCell_no_colon ⟨l, d, hs, hl, hd, hu, hdig⟩
    unfold parseExcelRange
    rw [splitOnChar_of_not_mem hnc, hs]
    simp [matchColRow_complete hl hd hu hdig]

/-- C8 witness: `B5` parses as a single cell with `start = end` and both
counts 1, while `A:B` fails although the schema-level grammar lists it. -/
theorem parseExcelRange_forms_witness :
    parseExcelRange ("B5").toList
      = some ⟨['B'], 5, ['B'], 5, true, 1, 1⟩
    ∧ parseExcelRange ("A1:C10").toList ≠ none
    ∧ parseExcelRange ("A:B").toList = none := by
  refine ⟨?_, ?_, ?_⟩
  · have h := (parseExcelRange_forms ("B5").toList).2.2 ['B'] ['5']
      (by decide) (by decide) (by decide) (by decide) (by decide)
    rw [h]
    decide
  · have h := (parseExcelRange_forms ("A1:C10").toList).1.mpr
      (Or.inr ⟨("A1").toList, ("C10").toList, by decide,
        ⟨['A'], ['1'], by decide, by decide, by decide, by decide, by decide⟩,
        ⟨['C'], ("10").toList, by decide, by decide, by decide, by decide, by decide⟩⟩)
    intro hq
    rw [hq] at h
    simp at h
  · exact (parseExcelRange_forms ("A:B").toList).2.1
      (Or.inl ⟨['A'], ['B'], by decide, by decide, by decide, by decide, by decide⟩)

/-- C5 counterexample: a worksheet listing contains `Sheet1`, which matches
the requested name `sheet1` case-insensitively, yet
`resolveWorksheetIdByName` fails — its match is case-sensitive — and the
error message carries only the requested name, not the available list. -/
theorem resolveWorksheet_counterexample :
    lcStr ("Sheet1").toList = lcStr ("sheet1").toList
    ∧ (resolveWorksheetIdByName emptyResolverState 0
        [⟨("Sheet1").toList, ("id1").toList⟩] ("it").toList ("sheet1").toList).1
      = Except.error ⟨("Worksheet not found: sheet1").toList, 404⟩ := by
  decide

/-- C5 (amended): on a cache miss, `resolveDriveIdByName` and
`resolveItemIdByName` match case-insensitively (exact match, first listing
entry wins via `find?`) and fail with a 404 NotFound error carrying the
available names when no case-insensitive match exists; but
`resolveWorksheetIdByName` matches case-SENSITIVELY and its 404 NotFound
message carries only the requested name, not the available names. -/
theorem resolver_matching (now : Int) (drives items sheets : List NamedItem)
    (driveName driveId itemName itemId worksheetName : Str)
    (hd : driveName ≠ []) (hi1 : driveId ≠ []) (hi2 : itemName ≠ [])
    (hw : worksheetName ≠ []) :
    (∀ m, drives.find? (fun d => lcStr d.name == lcStr driveName) = some m →
      (resolveDriveIdByName emptyResolverState now drives driveName).1
        = Except.ok m.id)
    ∧ (drives.find? (fun d => lcStr d.name == lcStr driveName) = none →
      (resolveDriveIdByName emptyResolverState now drives driveName).1
        = Except.error ⟨("Drive not found. Available drives: ").toList
            ++ jsonStringifyNames (drives.map (fun d => d.name)), 404⟩)
    ∧ (∀ m, items.find? (fun it => lcStr it.name == lcStr itemName) = some m →
      (resolveItemIdByName emptyResolverState now items driveId itemName).1
        = Except.ok m.id)
    ∧ (items.find? (fun it => lcStr it.name == lcStr itemName) = none →
      (resolveItemIdByName emptyResolverState now items driveId itemName).1
        = Except.error ⟨("File not found in this drive. Available items: ").toList
            ++ jsonStringifyNames (items.map (fun it => it.name)), 404⟩)
    ∧ (∀ m, sheets.find? (fun ws => ws.name == worksheetName) = some m →
      (resolveWorksheetIdByName emptyResolverState now sheets itemId worksheetName).1
        = Except.ok m.id)
    ∧ (sheets.find? (fun ws => ws.name == worksheetName) = none →
      (resolveWorksheetIdByName emptyResolverState now sheets itemId worksheetName).1
        = Except.error ⟨("Worksheet not found: ").toList ++ worksheetName, 404⟩) := by
  have hde : driveName.isEmpty = false := by simp [List.isEmpty_iff, hd]
  have hi1e : driveId.isEmpty = false := by simp [List.isEmpty_iff, hi1]
  have hi2e : itemName.isEmpty = false := by simp [List.isEmpty_iff, hi2]
  have hwe : worksheetName.isEmpty = false := by simp [List.isEmpty_iff, hw]
  refine ⟨?_, ?_, ?_, ?_, ?_, ?_⟩
  · intro m hm
    simp [resolveDriveIdByName, hde, emptyResolverState, resolveDriveFresh, hm]
  · intro hm
    simp [resolveDriveIdByName, hde, emptyResolverState, resolveDriveFresh, hm]
  · intro m hm
    simp [resolveItemIdByName, hi1e, hi2e, emptyResolverState, resolveItemFresh, hm]
  · intro hm
    simp [resolveItemIdByName, hi1e, hi2e, emptyResolverState, resolveItemFresh, hm]
  · intro m hm
    simp [resolveWorksheetIdByName, hwe, emptyResolverState, resolveWorksheetFresh, hm]
  · intro hm
    simp [resolveWorksheetIdByName, hwe, emptyResolverState, resolveWorksheetFresh, hm]

/-- C5 witness: `salesdata.xlsx` resolves against a listed drive named
`SalesData.xlsx`; an unknown drive name fails with the available-names
message; the worksheet resolver succeeds only on the exact-case name. -/
theorem resolver_matching_witness :
    (resolveDriveIdByName emptyResolverState 0
        [⟨("SalesData.xlsx").toList, ("d1").toList⟩] ("salesdata.xlsx").toList).1
      = Except.ok ("d1").toList
    ∧ (resolveDriveIdByName emptyResolverState 0
        [⟨("SalesData.xlsx").toList, ("d1").toList⟩] ("other").toList).1
      = Except.error ⟨("Drive not found. Available drives: ").toList
          ++ jsonStringifyNames [("SalesData.xlsx").toList], 404⟩
    ∧ (resolveWorksheetIdByName emptyResolverState 0
        [⟨("Sheet1").toList, ("s1").toList⟩] ("it").toList ("Sheet1").toList).1
      = Except.ok ("s1").toList := by
  refine ⟨?_, ?_, ?_⟩
  · exact (resolver_matching 0 [⟨("SalesData.xlsx").toList, ("d1").toList⟩] [] []
      ("salesdata.xlsx").toList ("x").toList ("x").toList ("x").toList ("x").toList
      (by decide) (by decide) (by decide) (by decide)).1
      ⟨("SalesData.xlsx").toList, ("d1").toList⟩ (by decide)
  · exact (resolver_matching 0 [⟨("SalesData.xlsx").toList, ("d1").toList⟩] [] []
      ("other").toList ("x").toList ("x").toList ("x").toList ("x").toList
      (by decide) (by decide) (by decide) (by decide)).2.1 (by decide)
  · exact (resolver_matching 0 [] [] [⟨("Sheet1").toList, ("s1").toList⟩]
      ("x").toList ("x").toList ("x").toList ("it").toList ("Sheet1").toList
      (by decide) (by decide) (by decide) (by decide)).2.2.2.2.1
      ⟨("Sheet1").toList, ("s1").toList⟩ (by decide)

/-- C6: for each of the three resolver caches, an entry written at `t0` and
looked up at `now` with `now - t0 < 10min` is served as-is with the state
unchanged and without consulting the Graph listing (the result does not
depend on the listing argument), while with `now - t0 ≥ 10min` the resolver
performs a fresh listing lookup and, on success, overwrites the entry with
the new id and timestamp `now`. -/
theorem resolver_cache_ttl (st : ResolverState) (now t0 : Int) (id0 : Str)
    (drives items sheets : List NamedItem)
    (driveName driveId itemName itemId worksheetName : Str)
    (hd : driveName ≠ []) (hi1 : driveId ≠ []) (hi2 : itemName ≠ [])
    (hw : worksheetName ≠ []) :
    (st.driveCache.lookup driveName = some ⟨id0, t0⟩ →
      (now - t0 < ttlMs →
        resolveDriveIdByName st now drives driveName = (Except.ok id0, st))
      ∧ (ttlMs ≤ now - t0 → ∀ m,
          drives.find? (fun d => lcStr d.name == lcStr driveName) = some m →
          resolveDriveIdByName st now drives driveName
            = (Except.ok m.id,
               { st with driveCache := mapSet st.driveCache driveName ⟨m.id, now⟩ })))
    ∧ (st.itemCache.lookup (driveId ++ ':' :: itemName) = some ⟨id0, t0⟩ →
      (now - t0 < ttlMs →
        resolveItemIdByName st now items driveId itemName = (Except.ok id0, st))
      ∧ (ttlMs ≤ now - t0 → ∀ m,
          items.find? (fun it => lcStr it.name == lcStr itemName) = some m →
          resolveItemIdByName st now items driveId itemName
            = (Except.ok m.id,
               { st with itemCache := mapSet st.itemCache (driveId ++ ':' :: itemName) ⟨m.id, now⟩ })))
    ∧ (st.worksheetCache.lookup (itemId ++ ':' :: worksheetName) = some ⟨id0, t0⟩ →
      (now - t0 < ttlMs →
        resolveWorksheetIdByName st now sheets itemId worksheetName
          = (Except.ok id0, st))
      ∧ (ttlMs ≤ now - t0 → ∀ m,
          sheets.find? (fun ws => ws.name == worksheetName) = some m →
          resolveWorksheetIdByName st now sheets itemId worksheetName
            = (Except.ok m.id,
               { st with worksheetCache := mapSet st.worksheetCache (itemId ++ ':' :: worksheetName) ⟨m.id, now⟩ }))) := by
  have hde : driveName.isEmpty = false := by simp [List.isEmpty_iff, hd]
  have hi1e : driveId.isEmpty = false := by simp [List.isEmpty_iff, hi1]
  have hi2e : itemName.isEmpty = false := by simp [List.isEmpty_iff, hi2]
  have hwe : worksheetName.isEmpty = false := by simp [List.isEmpty_iff, hw]
  refine ⟨?_, ?_, ?_⟩
  · intro hc
    constructor
    · intro hf
      simp [resolveDriveIdByName, hde, hc, hf]
    · intro hs m hm
      have hnf : ¬ (now - t0 < ttlMs) := by omega
      simp [resolveDriveIdByName, hde, hc, hnf, resolveDriveFresh, hm]
  · intro hc
    constructor
    · intro hf
      simp [resolveItemIdByName, hi1e, hi2e, hc, hf]
    · intro hs m hm
      have hnf : ¬ (now - t0 < ttlMs) := by omega
      simp [resolveItemIdByName, hi1e, hi2e, hc, hnf, resolveItemFresh, hm]
  · intro hc
    constructor
    · intro hf
      simp [resolveWorksheetIdByName, hwe, hc, hf]
    · intro hs m hm
      have hnf : ¬ (now - t0 < ttlMs) := by omega
      simp [resolveWorksheetIdByName, hwe, hc, hnf, resolveWorksheetFresh, hm]

/-- C6 witness: a drive entry written at `t0 = 0` is served from cache at
`now = 599999` ms (9min 59.999s) against an arbitrary listing, and at
`now = 600000` ms (10min) triggers the fresh lookup, which overwrites the
entry with the new id and timestamp. -/
theorem resolver_cache_ttl_witness :
    resolveDriveIdByName ⟨[(("d").toList, ⟨("cachedid").toList, 0⟩)], [], []⟩
      599999 [⟨("d").toList, ("newid").toList⟩] ("d").toList
      = (Except.ok ("cachedid").toList, ⟨[(("d").toList, ⟨("cachedid").toList, 0⟩)], [], []⟩)
    ∧ resolveDriveIdByName ⟨[(("d").toList, ⟨("cachedid").toList, 0⟩)], [], []⟩
        600000 [⟨("d").toList, ("newid").toList⟩] ("d").toList
      = (Except.ok ("newid").toList, ⟨[(("d").toList, ⟨("newid").toList, 600000⟩)], [], []⟩) := by
  constructor
  · exact ((resolver_cache_ttl ⟨[(("d").toList, ⟨("cachedid").toList, 0⟩)], [], []⟩
      599999 0 ("cachedid").toList [⟨("d").toList, ("newid").toList⟩] [] []
      ("d").toList ("x").toList ("x").toList ("x").toList ("x").toList
      (by decide) (by decide) (by decide) (by decide)).1 (by decide)).1 (by decide)
  · have h := ((resolver_cache_ttl ⟨[(("d").toList, ⟨("cachedid").toList, 0⟩)], [], []⟩
      600000 0 ("cachedid").toList [⟨("d").toList, ("newid").toList⟩] [] []
      ("d").toList ("x").toList ("x").toList ("x").toList ("x").toList
      (by decide) (by decide) (by decide) (by decide)).1 (by decide)).2 (by decide)
      ⟨("d").toList, ("newid").toList⟩ (by decide)
    rw [h]
    decide
